import Mathlib

/-!
Verification of the nissaba get-or-create engine (`nissaba/db/queries.py`,
`nissaba/db/schema.py`).

The store is modelled as a list of rows plus a fresh-id counter.  A session is
collapsed into the store itself (queries see staged inserts, matching
SQLAlchemy autoflush).  Field values are scalars, hstore mappings, foreign-key
references to persisted rows, or transient entity instances (which the
resolver `_prepare_model_params` replaces by persisted rows).  Each operation
returns its result, the store after the call, and the trace of statements it
issued; a savepoint rollback is reflected by returning the store from before
the rolled-back work.  Concurrent writers are modelled by a `race` parameter
of the noisy variant: insert attempts committed by other sessions between the
initial lookup and the insert.
-/

/-- An entity type: its table name and the field names of the declared unique
constraint (the natural key), from `schema.py`.  Foreign keys are collapsed
onto their relationship fields (`os_id`/`os` become the single field `"os"`
holding a row reference). -/
structure EntityType where
  ename : String
  naturalKey : List String
deriving DecidableEq, Repr

/-- Test outcomes, from `schema.py`. -/
inductive Outcome where
  | PASS
  | SKIP
  | ERROR
  | FAIL
  | XPASS
  | XFAIL
deriving DecidableEq, Repr

mutual
/-- A field value: scalar, hstore mapping, reference to a persisted row (a
foreign key), or a transient entity instance awaiting resolution. -/
inductive Value where
  | str (s : String) : Value
  | int (n : Int) : Value
  | outcome (o : Outcome) : Value
  | ref (id : Nat) : Value
  | hstore (m : List (String × String)) : Value
  | inst (t : EntityType) (fields : Fields) : Value
deriving DecidableEq, Repr

/-- The `__dict__` of a transient instance: an ordered association of
attribute names to values (may include underscore-named bookkeeping
attributes, which the resolver strips). -/
inductive Fields where
  | fnil : Fields
  | fcons (k : String) (v : Value) (rest : Fields) : Fields
deriving DecidableEq, Repr
end

/-- A keyword-argument mapping passed to the engine. -/
abbrev Params := List (String × Value)

/-- `k.startswith("_")`: does the attribute name begin with an underscore? -/
def underscoreLead (s : String) : Bool :=
  match s.data with
  | [] => false
  | c :: _ => c == '_'

/-- `{k: v for k, v in value.__dict__.items() if not k.startswith("_")}` from
`_prepare_model_params`. -/
def Fields.publicList : Fields → Params
  | .fnil => []
  | .fcons k v rest =>
      if underscoreLead k then rest.publicList else (k, v) :: rest.publicList

/-- The schema's entity types with their unique constraints (`schema.py`). -/
def OperatingSystem : EntityType := ⟨"operating_system", ["name", "type", "version"]⟩

def Hardware : EntityType := ⟨"hardware", ["architecture", "microarchitecture", "size"]⟩

def TestRun : EntityType :=
  ⟨"test_run", ["runner", "branch", "start_datetime", "milliseconds_duration"]⟩

def TestException : EntityType := ⟨"exception", ["message", "class_name", "filename", "line_no"]⟩

def TestSpec : EntityType := ⟨"test_spec", ["name", "vut", "parameters", "os", "hardware"]⟩

def TestResult : EntityType := ⟨"test_result", ["outcome", "start_datetime", "run", "test_spec"]⟩

/-- A persisted row: surrogate id, entity type, and field values. -/
structure Row where
  rid : Nat
  rtype : EntityType
  fields : Params
deriving DecidableEq, Repr

/-- The store visible to the session: rows (committed or staged) and the next
surrogate id. -/
structure DB where
  rows : List Row
  nextId : Nat
deriving DecidableEq, Repr

/-- Errors surfaced by the session layer: `NoResultFound`,
`MultipleResultsFound` (both from `.one()`) and `IntegrityError`. -/
inductive DbErr where
  | noResultFound
  | multipleResults
  | integrityError
deriving DecidableEq, Repr

/-- Statements issued against the store.  `savepoint`/`releaseSp`/`rollbackSp`
are the transaction-control statements of `session.begin_nested()`. -/
inductive Stmt where
  | select (t : EntityType) (ps : Params)
  | insert (t : EntityType) (ps : Params)
  | savepoint
  | releaseSp
  | rollbackSp
deriving DecidableEq, Repr

/-- First value bound to key `k` in an association list. -/
def getVal : Params → String → Option Value
  | [], _ => none
  | (k', v) :: rest, k => if k' = k then some v else getVal rest k

/-- `filter_by(**params)`: a row matches when every given field equals the
given value. -/
def matchesParams (r : Row) (ps : Params) : Bool :=
  ps.all (fun kv => getVal r.fields kv.1 == some kv.2)

/-- `session.query(model).filter_by(**params)`: all matching rows. -/
def queryAll (db : DB) (t : EntityType) (ps : Params) : List Row :=
  db.rows.filter (fun r => r.rtype == t && matchesParams r ps)

/-- `.one()`: zero rows raises `NoResultFound`, more than one raises
`MultipleResultsFound`. -/
def queryOne (db : DB) (t : EntityType) (ps : Params) : Except DbErr Row :=
  match queryAll db t ps with
  | [] => .error .noResultFound
  | [r] => .ok r
  | _ :: _ :: _ => .error .multipleResults

/-- A row's natural-key tuple under type `t`'s unique constraint. -/
def rowKey (t : EntityType) (r : Row) : List (Option Value) :=
  t.naturalKey.map (getVal r.fields)

/-- The natural-key tuple determined by a parameter mapping. -/
def paramsKey (t : EntityType) (ps : Params) : List (Option Value) :=
  t.naturalKey.map (getVal ps)

/-- The store's unique constraint: inserting `ps` into `t` conflicts when an
existing row of `t` already carries the same natural-key tuple. -/
def violatesUnique (db : DB) (t : EntityType) (ps : Params) : Bool :=
  db.rows.any (fun r => r.rtype == t && rowKey t r == paramsKey t ps)

/-- `model(**params)` followed by `session.add`: the staged row. -/
def newRow (db : DB) (t : EntityType) (ps : Params) : Row := ⟨db.nextId, t, ps⟩

/-- A successful insert: append the new row and advance the id counter. -/
def insertRow (db : DB) (t : EntityType) (ps : Params) : Row × DB :=
  (newRow db t ps, ⟨db.rows ++ [newRow db t ps], db.nextId + 1⟩)

/-- Net store effect of an insert guarded by the unique constraint: a
conflicting insert is rejected (rolled back) and leaves the store unchanged. -/
def insertAttempt (db : DB) (t : EntityType) (ps : Params) : DB :=
  if violatesUnique db t ps then db else (insertRow db t ps).2

/-- Commits by concurrent sessions: a sequence of guarded insert attempts. -/
def applyRace (db : DB) (race : List (EntityType × Params)) : DB :=
  race.foldl (fun d tp => insertAttempt d tp.1 tp.2) db

/-- Which get-or-create strategy is in effect (the Python code passes the
strategy function itself into `_prepare_model_params`). -/
inductive Variant where
  | noisy
  | quiet
deriving DecidableEq, Repr

mutual
/-- Structural size of a value, used as the termination measure of the
resolver. -/
def Value.vsize : Value → Nat
  | .inst _ fields => 1 + fields.fsize
  | _ => 1

/-- Structural size of an instance's attribute mapping. -/
def Fields.fsize : Fields → Nat
  | .fnil => 0
  | .fcons _ v rest => 1 + v.vsize + rest.fsize
end

/-- Structural size of a keyword-argument mapping. -/
def psize : Params → Nat
  | [] => 0
  | (_, v) :: rest => 1 + v.vsize + psize rest

theorem psize_publicList_le (f : Fields) : psize f.publicList ≤ f.fsize := by
  match f with
  | .fnil => simp [Fields.publicList, psize, Fields.fsize]
  | .fcons k v rest =>
    have ih := psize_publicList_le rest
    by_cases h : underscoreLead k = true <;>
      simp only [Fields.publicList, h, if_true, if_false, psize, Fields.fsize] <;>
      omega

mutual
/-- `noisey_get_one_or_create` from `queries.py`: resolve the kwargs, query
`.one()`, and on `NoResultFound` insert inside `session.begin_nested()`;
an `IntegrityError` (a concurrent commit, injected here via `race`) rolls the
savepoint back and the row is re-queried. -/
def noisey_get_one_or_create (db : DB) (model : EntityType) (kwargs : Params)
    (race : List (EntityType × Params)) : Except DbErr Row × DB × List Stmt :=
  match _prepare_model_params .noisy db kwargs with
  | (.error e, db₀, tr₀) => (.error e, db₀, tr₀)
  | (.ok params, db₀, tr₀) =>
    match queryOne db₀ model params with
    | .ok r => (.ok r, db₀, tr₀ ++ [.select model params])
    | .error .noResultFound =>
      let db₁ := applyRace db₀ race
      if violatesUnique db₁ model params then
        (queryOne db₁ model params, db₁,
          tr₀ ++ [.select model params, .savepoint, .insert model params, .rollbackSp,
            .select model params])
      else
        (.ok (insertRow db₁ model params).1, (insertRow db₁ model params).2,
          tr₀ ++ [.select model params, .savepoint, .insert model params, .releaseSp])
    | .error e => (.error e, db₀, tr₀ ++ [.select model params])
termination_by (psize kwargs, 1)

/-- `_quiet_get_one_or_create` from `queries.py`: resolve, query `.one()`, and
on `NoResultFound` stage the insert without guarding against a conflicting
row; the conflict surfaces as an uncaught `IntegrityError` at flush. -/
def _quiet_get_one_or_create (db : DB) (model : EntityType) (kwargs : Params) :
    Except DbErr Row × DB × List Stmt :=
  match _prepare_model_params .quiet db kwargs with
  | (.error e, db₀, tr₀) => (.error e, db₀, tr₀)
  | (.ok params, db₀, tr₀) =>
    match queryOne db₀ model params with
    | .ok r => (.ok r, db₀, tr₀ ++ [.select model params])
    | .error .noResultFound =>
      if violatesUnique db₀ model params then
        (.error .integrityError, db₀, tr₀ ++ [.select model params, .insert model params])
      else
        (.ok (insertRow db₀ model params).1, (insertRow db₀ model params).2,
          tr₀ ++ [.select model params, .insert model params])
    | .error e => (.error e, db₀, tr₀ ++ [.select model params])
termination_by (psize kwargs, 1)

/-- `_prepare_model_params` from `queries.py`: walk the kwargs in order,
resolving each value; the strategy argument selects which get-or-create the
recursion uses. -/
def _prepare_model_params (v : Variant) (db : DB) (kwargs : Params) :
    Except DbErr Params × DB × List Stmt :=
  match kwargs with
  | [] => (.ok [], db, [])
  | (key, value) :: rest =>
    match resolveValue v db value with
    | (.error e, db₁, tr₁) => (.error e, db₁, tr₁)
    | (.ok value', db₁, tr₁) =>
      match _prepare_model_params v db₁ rest with
      | (.error e, db₂, tr₂) => (.error e, db₂, tr₁ ++ tr₂)
      | (.ok rest', db₂, tr₂) => (.ok ((key, value') :: rest'), db₂, tr₁ ++ tr₂)
termination_by (psize kwargs, 0)
decreasing_by
  all_goals apply Prod.Lex.left
  all_goals simp [psize]
  all_goals omega

/-- One step of `_prepare_model_params`: an entity-instance value is replaced
by the row obtained from recursively get-or-creating its public `__dict__`
with the same strategy; every other value passes through unchanged. -/
def resolveValue (v : Variant) (db : DB) (value : Value) :
    Except DbErr Value × DB × List Stmt :=
  match value with
  | .inst t fields =>
    match v with
    | .noisy =>
      match noisey_get_one_or_create db t fields.publicList [] with
      | (.ok r, db', tr) => (.ok (.ref r.rid), db', tr)
      | (.error e, db', tr) => (.error e, db', tr)
    | .quiet =>
      match _quiet_get_one_or_create db t fields.publicList with
      | (.ok r, db', tr) => (.ok (.ref r.rid), db', tr)
      | (.error e, db', tr) => (.error e, db', tr)
  | other => (.ok other, db, [])
termination_by (value.vsize, 2)
decreasing_by
  all_goals
    have h := psize_publicList_le fields
    simp [Value.vsize]
    omega
end

/-- `quiet_get_one_or_create` from `queries.py`: `_quiet_get_one_or_create`
inside `session.begin_nested()`; on an escaping error the savepoint is rolled
back (restoring the store) and the error propagates. -/
def quiet_get_one_or_create (db : DB) (model : EntityType) (kwargs : Params) :
    Except DbErr Row × DB × List Stmt :=
  match _quiet_get_one_or_create db model kwargs with
  | (.ok r, db', tr) => (.ok r, db', .savepoint :: (tr ++ [.releaseSp]))
  | (.error e, _, tr) => (.error e, db, .savepoint :: (tr ++ [.rollbackSp]))

/-- The dynamically-typed value held by the `instances` variable of
`bulk_get_or_create`: initialized to a list, overwritten with a row. -/
inductive PyVal where
  | list (rs : List Row)
  | row (r : Row)
deriving DecidableEq, Repr

/-- The loop body of `bulk_get_or_create`: `instances` is rebound (not
appended) to each `_quiet_get_one_or_create` result. -/
def bulk_loop (db : DB) (objects : List (EntityType × Params)) (instances : PyVal) :
    Except DbErr PyVal × DB × List Stmt :=
  match objects with
  | [] => (.ok instances, db, [])
  | (model, kwargs) :: rest =>
    match _quiet_get_one_or_create db model kwargs with
    | (.ok r, db', tr) =>
      match bulk_loop db' rest (.row r) with
      | (res, db'', tr') => (res, db'', tr ++ tr')
    | (.error e, db', tr) => (.error e, db', tr)

/-- `bulk_get_or_create` from `queries.py`: the loop inside a single shared
`session.begin_nested()`. -/
def bulk_get_or_create (db : DB) (objects : List (EntityType × Params)) :
    Except DbErr PyVal × DB × List Stmt :=
  match bulk_loop db objects (.list []) with
  | (.ok v, db', tr) => (.ok v, db', .savepoint :: (tr ++ [.releaseSp]))
  | (.error e, _, tr) => (.error e, db, .savepoint :: (tr ++ [.rollbackSp]))

/-- The per-item quiet resolutions of a batch, collected in input order (the
result `bulk_get_or_create` would return if its loop appended instead of
rebinding `instances`). -/
def quietSeq (db : DB) (objects : List (EntityType × Params)) :
    Except DbErr (List Row) × DB :=
  match objects with
  | [] => (.ok [], db)
  | (model, kwargs) :: rest =>
    match _quiet_get_one_or_create db model kwargs with
    | (.ok r, db', _) =>
      match quietSeq db' rest with
      | (.ok rs, db'') => (.ok (r :: rs), db'')
      | (.error e, db'') => (.error e, db'')
    | (.error e, db', _) => (.error e, db')

/-- Which engine entry point a caller uses. -/
inductive CallKind where
  | noisyCall
  | quietCall
  | bulkCall
deriving DecidableEq, Repr

/-- Invoke one entry point of the engine for a single (type, kwargs) pair
within one session (no concurrent writers).  The batch entry point is called
with the singleton list; its `.list` success case cannot occur for a
nonempty input and is mapped to an arbitrary error. -/
def runCall (c : CallKind) (db : DB) (t : EntityType) (kwargs : Params) :
    Except DbErr Row × DB :=
  match c with
  | .noisyCall =>
    match noisey_get_one_or_create db t kwargs [] with
    | (r, db', _) => (r, db')
  | .quietCall =>
    match quiet_get_one_or_create db t kwargs with
    | (r, db', _) => (r, db')
  | .bulkCall =>
    match bulk_get_or_create db [(t, kwargs)] with
    | (.ok (.row r), db', _) => (.ok r, db')
    | (.ok (.list _), db', _) => (.error .noResultFound, db')
    | (.error e, db', _) => (.error e, db')

/-- A sequence of engine calls with the same type and kwargs within one
session, collecting every call's result. -/
def runCalls (db : DB) (t : EntityType) (kwargs : Params) :
    List CallKind → List (Except DbErr Row) × DB
  | [] => ([], db)
  | c :: cs =>
    match runCall c db t kwargs with
    | (r, db') =>
      match runCalls db' t kwargs cs with
      | (rs, db'') => (r :: rs, db'')

/-- Does a value carry a transient entity instance (`isinstance(value, Base)`)? -/
def Value.isInst : Value → Bool
  | .inst _ _ => true
  | _ => false

/-- A flat mapping: no value is a transient entity instance. -/
def flatParams (ps : Params) : Bool :=
  ps.all (fun kv => !kv.2.isInst)

/-- Statements counted by the query bound: lookups and inserts (transaction
control excluded). -/
def countedQI : Stmt → Bool
  | .select _ _ => true
  | .insert _ _ => true
  | _ => false

/-- Number of query/insert statements in a trace. -/
def queryCount (tr : List Stmt) : Nat := (tr.filter countedQI).length

/-- Savepoint-depth contribution of one statement. -/
def spDepth : Stmt → Int
  | .savepoint => 1
  | .releaseSp => -1
  | .rollbackSp => -1
  | _ => 0

/-- Net savepoint depth of a trace: zero means every nested sub-transaction
opened was released or rolled back. -/
def netDepth (tr : List Stmt) : Int := (tr.map spDepth).sum

/-- Number of rows of type `t` carrying natural-key tuple `kv`. -/
def countKey (db : DB) (t : EntityType) (kv : List (Option Value)) : Nat :=
  (db.rows.filter (fun r => r.rtype == t && rowKey t r == kv)).length

/-- The no-duplicate invariant: at most one row per natural key per type. -/
def AtMostOnePerKey (db : DB) : Prop := ∀ t kv, countKey db t kv ≤ 1

/-- A value holds no reference to a not-yet-allocated surrogate id. -/
def refsBelow (n : Nat) : Value → Bool
  | .ref i => decide (i < n)
  | _ => true

/-- A well-formed store: row ids and row-level references stay below the
fresh-id counter. -/
def WfDB (db : DB) : Bool :=
  db.rows.all (fun r =>
    decide (r.rid < db.nextId) && r.fields.all (fun kv => refsBelow db.nextId kv.2))


/-! ### Association-list and key lemmas -/

theorem getVal_eq_some_of_mem {ps : Params} {k : String} {v : Value}
    (hnd : (ps.map Prod.fst).Nodup) (hmem : (k, v) ∈ ps) : getVal ps k = some v := by
  induction ps with
  | nil => simp at hmem
  | cons kv rest ih =>
    obtain ⟨k', v'⟩ := kv
    simp only [List.map_cons, List.nodup_cons] at hnd
    rcases List.mem_cons.mp hmem with h | h
    · injection h with hk hv
      subst hk
      subst hv
      simp [getVal]
    · have hkne : k' ≠ k := by
        intro he
        exact hnd.1 (he ▸ (List.mem_map.mpr ⟨(k, v), h, rfl⟩))
      simp [getVal, hkne]
      exact ih hnd.2 h

theorem mem_of_getVal_eq_some {ps : Params} {k : String} {v : Value}
    (h : getVal ps k = some v) : (k, v) ∈ ps := by
  induction ps with
  | nil => simp [getVal] at h
  | cons kv rest ih =>
    obtain ⟨k', v'⟩ := kv
    by_cases he : k' = k
    · simp [getVal, he] at h
      simp [he, h]
    · simp [getVal, he] at h
      exact List.mem_cons_of_mem _ (ih h)

theorem getVal_append (l₁ l₂ : Params) (k : String) :
    getVal (l₁ ++ l₂) k =
      (match getVal l₁ k with
       | some v => some v
       | none => getVal l₂ k) := by
  induction l₁ with
  | nil => simp [getVal]
  | cons kv rest ih =>
    obtain ⟨k', v'⟩ := kv
    by_cases he : k' = k <;> simp [getVal, he, ih]

/-- A freshly constructed row matches the parameters it was built from. -/
theorem matchesParams_newRow {ps : Params} (hnd : (ps.map Prod.fst).Nodup)
    (i : Nat) (t : EntityType) : matchesParams ⟨i, t, ps⟩ ps = true := by
  simp only [matchesParams, List.all_eq_true]
  intro kv hmem
  simp [getVal_eq_some_of_mem hnd hmem]

/-- A full-parameter match forces natural-key agreement whenever the
parameters cover the natural key. -/
theorem rowKey_eq_paramsKey_of_matches {r : Row} {t : EntityType} {ps : Params}
    (hcover : ∀ k ∈ t.naturalKey, (getVal ps k).isSome)
    (hm : matchesParams r ps = true) : rowKey t r = paramsKey t ps := by
  simp only [rowKey, paramsKey]
  apply List.map_congr_left
  intro k hk
  obtain ⟨v, hv⟩ := Option.isSome_iff_exists.mp (hcover k hk)
  have hmem := mem_of_getVal_eq_some hv
  simp only [matchesParams, List.all_eq_true] at hm
  have := hm (k, v) hmem
  simp only [beq_iff_eq] at this
  rw [this, hv]

/-! ### Count and uniqueness lemmas -/

theorem countKey_nextId (rows : List Row) (n m : Nat) (t : EntityType)
    (kv : List (Option Value)) : countKey ⟨rows, n⟩ t kv = countKey ⟨rows, m⟩ t kv := rfl

theorem countKey_append (l₁ l₂ : List Row) (n : Nat) (t : EntityType)
    (kv : List (Option Value)) :
    countKey ⟨l₁ ++ l₂, n⟩ t kv = countKey ⟨l₁, n⟩ t kv + countKey ⟨l₂, n⟩ t kv := by
  simp [countKey, List.filter_append]

theorem countKey_singleton (r : Row) (n : Nat) (t : EntityType) (kv : List (Option Value)) :
    countKey ⟨[r], n⟩ t kv = if r.rtype = t ∧ rowKey t r = kv then 1 else 0 := by
  by_cases h1 : r.rtype = t <;> by_cases h2 : rowKey t r = kv <;>
    simp [countKey, List.filter, beq_eq_decide, h1, h2]

theorem violatesUnique_eq_false_iff (db : DB) (t : EntityType) (ps : Params) :
    violatesUnique db t ps = false ↔ countKey db t (paramsKey t ps) = 0 := by
  simp only [violatesUnique, countKey, List.any_eq_false, List.length_eq_zero,
    List.filter_eq_nil_iff]

theorem violatesUnique_eq_true_iff (db : DB) (t : EntityType) (ps : Params) :
    violatesUnique db t ps = true ↔ 1 ≤ countKey db t (paramsKey t ps) := by
  constructor
  · intro hv
    by_contra hc
    push_neg at hc
    have h0 : countKey db t (paramsKey t ps) = 0 := by omega
    have hf := (violatesUnique_eq_false_iff db t ps).mpr h0
    rw [hv] at hf
    cases hf
  · intro hc
    cases hvv : violatesUnique db t ps
    · have := (violatesUnique_eq_false_iff db t ps).mp hvv
      omega
    · rfl

/-- With the natural key covered and no row carrying the key, no row matches
the full parameter mapping either. -/
theorem queryAll_eq_nil_of_fresh {db : DB} {t : EntityType} {ps : Params}
    (hcover : ∀ k ∈ t.naturalKey, (getVal ps k).isSome)
    (hfresh : countKey db t (paramsKey t ps) = 0) : queryAll db t ps = [] := by
  simp only [queryAll, List.filter_eq_nil_iff]
  intro r hr
  simp only [Bool.and_eq_true, beq_iff_eq, not_and]
  intro hty hm
  have hkey := rowKey_eq_paramsKey_of_matches hcover hm
  simp only [countKey, List.length_eq_zero, List.filter_eq_nil_iff] at hfresh
  have := hfresh r hr
  simp [hty, hkey] at this

/-! ### Resolver lemmas -/

theorem resolveValue_not_inst {value : Value} (h : value.isInst = false)
    (v : Variant) (db : DB) : resolveValue v db value = (.ok value, db, []) := by
  cases value with
  | inst t fields => exact absurd h (by simp [Value.isInst])
  | str s => rw [resolveValue]; simp
  | int n => rw [resolveValue]; simp
  | outcome o => rw [resolveValue]; simp
  | ref i => rw [resolveValue]; simp
  | hstore m => rw [resolveValue]; simp

/-- On a flat mapping the resolver is the identity and issues no statement. -/
theorem prepare_flat {ps : Params} (h : flatParams ps = true) (v : Variant) (db : DB) :
    _prepare_model_params v db ps = (.ok ps, db, []) := by
  induction ps generalizing db with
  | nil => simp [_prepare_model_params]
  | cons kv rest ih =>
    obtain ⟨k, value⟩ := kv
    simp only [flatParams, List.all_cons, Bool.and_eq_true, Bool.not_eq_true'] at h
    rw [_prepare_model_params]
    simp [resolveValue_not_inst h.1, ih (show flatParams rest = true by simp [flatParams, h.2])]

/-- A flat leading segment passes through the resolver unchanged. -/
theorem prepare_flat_append {pre rest : Params} (h : flatParams pre = true)
    (v : Variant) (db : DB) :
    _prepare_model_params v db (pre ++ rest) =
      (match _prepare_model_params v db rest with
       | (.ok rest', db', tr) => (.ok (pre ++ rest'), db', tr)
       | (.error e, db', tr) => (.error e, db', tr)) := by
  induction pre generalizing db with
  | nil =>
    simp only [List.nil_append]
    rcases hr : _prepare_model_params v db rest with ⟨res, db', tr⟩
    cases res <;> simp
  | cons kv pre' ih =>
    obtain ⟨k, value⟩ := kv
    simp only [flatParams, List.all_cons, Bool.and_eq_true, Bool.not_eq_true'] at h
    have hpre' : flatParams pre' = true := by simp [flatParams, h.2]
    rcases hr : _prepare_model_params v db rest with ⟨res, db', tr⟩
    have ih' := ih hpre' db
    rw [hr] at ih'
    rw [List.cons_append, _prepare_model_params]
    cases res with
    | ok rest' =>
      simp at ih'
      simp [resolveValue_not_inst h.1, ih']
    | error e =>
      simp at ih'
      simp [resolveValue_not_inst h.1, ih']

/-! ### Case-analysis lemmas for the engine core -/

theorem quiet_core_found {db : DB} {t : EntityType} {ps : Params} {r : Row}
    (hflat : flatParams ps = true) (hq : queryAll db t ps = [r]) :
    _quiet_get_one_or_create db t ps = (.ok r, db, [.select t ps]) := by
  rw [_quiet_get_one_or_create, prepare_flat hflat]
  simp [queryOne, hq]

theorem quiet_core_multi {db : DB} {t : EntityType} {ps : Params} {r₁ r₂ : Row} {rest : List Row}
    (hflat : flatParams ps = true) (hq : queryAll db t ps = r₁ :: r₂ :: rest) :
    _quiet_get_one_or_create db t ps = (.error .multipleResults, db, [.select t ps]) := by
  rw [_quiet_get_one_or_create, prepare_flat hflat]
  simp [queryOne, hq]

theorem quiet_core_create {db : DB} {t : EntityType} {ps : Params}
    (hflat : flatParams ps = true) (hq : queryAll db t ps = [])
    (hv : violatesUnique db t ps = false) :
    _quiet_get_one_or_create db t ps =
      (.ok (newRow db t ps), ⟨db.rows ++ [newRow db t ps], db.nextId + 1⟩,
        [.select t ps, .insert t ps]) := by
  rw [_quiet_get_one_or_create, prepare_flat hflat]
  simp [queryOne, hq, hv, insertRow]

theorem quiet_core_conflict {db : DB} {t : EntityType} {ps : Params}
    (hflat : flatParams ps = true) (hq : queryAll db t ps = [])
    (hv : violatesUnique db t ps = true) :
    _quiet_get_one_or_create db t ps =
      (.error .integrityError, db, [.select t ps, .insert t ps]) := by
  rw [_quiet_get_one_or_create, prepare_flat hflat]
  simp [queryOne, hq, hv]

theorem noisy_found {db : DB} {t : EntityType} {ps : Params} {r : Row}
    (hflat : flatParams ps = true) (race : List (EntityType × Params))
    (hq : queryAll db t ps = [r]) :
    noisey_get_one_or_create db t ps race = (.ok r, db, [.select t ps]) := by
  rw [noisey_get_one_or_create, prepare_flat hflat]
  simp [queryOne, hq]

theorem noisy_multi {db : DB} {t : EntityType} {ps : Params} {r₁ r₂ : Row} {rest : List Row}
    (hflat : flatParams ps = true) (race : List (EntityType × Params))
    (hq : queryAll db t ps = r₁ :: r₂ :: rest) :
    noisey_get_one_or_create db t ps race = (.error .multipleResults, db, [.select t ps]) := by
  rw [noisey_get_one_or_create, prepare_flat hflat]
  simp [queryOne, hq]

theorem noisy_create {db : DB} {t : EntityType} {ps : Params}
    (race : List (EntityType × Params))
    (hflat : flatParams ps = true) (hq : queryAll db t ps = [])
    (hv : violatesUnique (applyRace db race) t ps = false) :
    noisey_get_one_or_create db t ps race =
      (.ok (newRow (applyRace db race) t ps),
        ⟨(applyRace db race).rows ++ [newRow (applyRace db race) t ps],
          (applyRace db race).nextId + 1⟩,
        [.select t ps, .savepoint, .insert t ps, .releaseSp]) := by
  rw [noisey_get_one_or_create, prepare_flat hflat]
  simp [queryOne, hq, hv, insertRow]

theorem noisy_conflict {db : DB} {t : EntityType} {ps : Params}
    {race : List (EntityType × Params)}
    (hflat : flatParams ps = true) (hq : queryAll db t ps = [])
    (hv : violatesUnique (applyRace db race) t ps = true) :
    noisey_get_one_or_create db t ps race =
      (queryOne (applyRace db race) t ps, applyRace db race,
        [.select t ps, .savepoint, .insert t ps, .rollbackSp, .select t ps]) := by
  rw [noisey_get_one_or_create, prepare_flat hflat]
  simp [queryOne, hq, hv]

theorem applyRace_nil (db : DB) : applyRace db [] = db := rfl

/-! ### Wrapper-level call lemmas -/

theorem runCall_found {db : DB} {t : EntityType} {ps : Params} {r : Row}
    (c : CallKind) (hflat : flatParams ps = true) (hq : queryAll db t ps = [r]) :
    runCall c db t ps = (.ok r, db) := by
  cases c with
  | noisyCall => simp [runCall, noisy_found hflat [] hq]
  | quietCall => simp [runCall, quiet_get_one_or_create, quiet_core_found hflat hq]
  | bulkCall =>
    simp [runCall, bulk_get_or_create, bulk_loop, quiet_core_found hflat hq]

theorem runCall_create {db : DB} {t : EntityType} {ps : Params}
    (c : CallKind) (hflat : flatParams ps = true) (hq : queryAll db t ps = [])
    (hv : violatesUnique db t ps = false) :
    runCall c db t ps =
      (.ok (newRow db t ps), ⟨db.rows ++ [newRow db t ps], db.nextId + 1⟩) := by
  cases c with
  | noisyCall =>
    have h := noisy_create [] hflat hq (by rw [applyRace_nil]; exact hv)
    rw [applyRace_nil] at h
    simp [runCall, h]
  | quietCall => simp [runCall, quiet_get_one_or_create, quiet_core_create hflat hq hv]
  | bulkCall =>
    simp [runCall, bulk_get_or_create, bulk_loop, quiet_core_create hflat hq hv]

theorem runCalls_steady {db : DB} {t : EntityType} {ps : Params} {r : Row}
    (hflat : flatParams ps = true) (hq : queryAll db t ps = [r]) (cs : List CallKind) :
    runCalls db t ps cs = (cs.map (fun _ => Except.ok r), db) := by
  induction cs with
  | nil => simp [runCalls]
  | cons c cs ih => simp [runCalls, runCall_found c hflat hq, ih]

/-- After inserting the freshly constructed row for a previously-absent
natural key, the full-parameter lookup returns exactly that row. -/
theorem queryAll_snoc_self {db : DB} {t : EntityType} {ps : Params} (m i : Nat)
    (hnodup : (ps.map Prod.fst).Nodup)
    (hcover : ∀ k ∈ t.naturalKey, (getVal ps k).isSome)
    (hfresh : countKey db t (paramsKey t ps) = 0) :
    queryAll ⟨db.rows ++ [⟨i, t, ps⟩], m⟩ t ps = [⟨i, t, ps⟩] := by
  have hnil : queryAll db t ps = [] := queryAll_eq_nil_of_fresh hcover hfresh
  simp only [queryAll] at hnil ⊢
  rw [List.filter_append, hnil]
  simp [matchesParams_newRow hnodup]

/-! ### Claim C1 -/

/-- C1.  Idempotence of get-or-create: for any entity type and fixed flat
natural-key field mapping (keys distinct and covering the natural key) whose
key is not yet present, any nonempty mix of noisy, quiet and batch calls
within one session leaves exactly one row for that natural key in the store,
and every call returns an instance equal (by natural key) to that row. -/
theorem idempotence_get_or_create
    (db : DB) (t : EntityType) (ps : Params) (calls : List CallKind)
    (hne : calls ≠ [])
    (hflat : flatParams ps = true)
    (hnodup : (ps.map Prod.fst).Nodup)
    (hcover : ∀ k ∈ t.naturalKey, (getVal ps k).isSome)
    (hfresh : countKey db t (paramsKey t ps) = 0) :
    countKey (runCalls db t ps calls).2 t (paramsKey t ps) = 1 ∧
    ∀ res ∈ (runCalls db t ps calls).1, ∃ r : Row,
      res = .ok r ∧ rowKey t r = paramsKey t ps := by
  cases calls with
  | nil => exact absurd rfl hne
  | cons c cs =>
    have hq : queryAll db t ps = [] := queryAll_eq_nil_of_fresh hcover hfresh
    have hv : violatesUnique db t ps = false := (violatesUnique_eq_false_iff db t ps).mpr hfresh
    have h1 := runCall_create c hflat hq hv
    have hq2 : queryAll ⟨db.rows ++ [newRow db t ps], db.nextId + 1⟩ t ps = [newRow db t ps] :=
      queryAll_snoc_self (db.nextId + 1) db.nextId hnodup hcover hfresh
    have h2 := runCalls_steady hflat hq2 cs
    simp only [runCalls, h1, h2]
    have hkey : rowKey t (newRow db t ps) = paramsKey t ps := rfl
    constructor
    · rw [countKey_append, countKey_nextId db.rows (db.nextId + 1) db.nextId,
        countKey_singleton]
      have h0 : countKey ⟨db.rows, db.nextId⟩ t (paramsKey t ps) = 0 := hfresh
      rw [h0, if_pos (show (newRow db t ps).rtype = t ∧
        rowKey t (newRow db t ps) = paramsKey t ps from ⟨rfl, hkey⟩)]
    · intro res hres
      rcases List.mem_cons.mp hres with h | h
      · exact ⟨newRow db t ps, h, hkey⟩
      · obtain ⟨_, _, hres'⟩ := List.mem_map.mp h
        exact ⟨newRow db t ps, hres'.symm, hkey⟩

/-- Witness for C1 at a concrete input: the scenario mapping
`OperatingSystem(name="ubuntu", type="Linux", version="20.04")` called three
times (quiet, noisy, batch) on an empty store. -/
theorem idempotence_get_or_create_witness :
    countKey (runCalls ⟨[], 0⟩ OperatingSystem
        [("name", .str "ubuntu"), ("type", .str "Linux"), ("version", .str "20.04")]
        [.quietCall, .noisyCall, .bulkCall]).2 OperatingSystem
      (paramsKey OperatingSystem
        [("name", .str "ubuntu"), ("type", .str "Linux"), ("version", .str "20.04")]) = 1 ∧
    ∀ res ∈ (runCalls ⟨[], 0⟩ OperatingSystem
        [("name", .str "ubuntu"), ("type", .str "Linux"), ("version", .str "20.04")]
        [.quietCall, .noisyCall, .bulkCall]).1, ∃ r : Row,
      res = .ok r ∧
      rowKey OperatingSystem r = paramsKey OperatingSystem
        [("name", .str "ubuntu"), ("type", .str "Linux"), ("version", .str "20.04")] :=
  idempotence_get_or_create ⟨[], 0⟩ OperatingSystem
    [("name", .str "ubuntu"), ("type", .str "Linux"), ("version", .str "20.04")]
    [.quietCall, .noisyCall, .bulkCall]
    (by simp) (by decide) (by decide)
    (by decide) (by decide)

/-! ### Claim C3 -/

/-- C3.  The quiet variant first resolves the mapping, then queries for a row
matching all resolved field values: a found row is returned as-is; on a miss
it constructs the new instance, stages it and returns it; a uniqueness
violation arising from that insert is not caught but propagates (the shared
savepoint having been rolled back). -/
theorem quiet_variant_algorithm
    (db db₀ : DB) (t : EntityType) (kwargs ps : Params) (tr₀ : List Stmt)
    (hprep : _prepare_model_params .quiet db kwargs = (.ok ps, db₀, tr₀)) :
    (∀ r, queryAll db₀ t ps = [r] →
      quiet_get_one_or_create db t kwargs =
        (.ok r, db₀, .savepoint :: (tr₀ ++ [.select t ps] ++ [.releaseSp]))) ∧
    (queryAll db₀ t ps = [] → violatesUnique db₀ t ps = false →
      quiet_get_one_or_create db t kwargs =
        (.ok (newRow db₀ t ps), ⟨db₀.rows ++ [newRow db₀ t ps], db₀.nextId + 1⟩,
          .savepoint :: (tr₀ ++ [.select t ps, .insert t ps] ++ [.releaseSp]))) ∧
    (queryAll db₀ t ps = [] → violatesUnique db₀ t ps = true →
      quiet_get_one_or_create db t kwargs =
        (.error .integrityError, db,
          .savepoint :: (tr₀ ++ [.select t ps, .insert t ps] ++ [.rollbackSp]))) := by
  refine ⟨?_, ?_, ?_⟩
  · intro r hq
    have hc : _quiet_get_one_or_create db t kwargs = (.ok r, db₀, tr₀ ++ [.select t ps]) := by
      rw [_quiet_get_one_or_create, hprep]
      simp [queryOne, hq]
    simp [quiet_get_one_or_create, hc]
  · intro hq hv
    have hc : _quiet_get_one_or_create db t kwargs =
        (.ok (newRow db₀ t ps), ⟨db₀.rows ++ [newRow db₀ t ps], db₀.nextId + 1⟩,
          tr₀ ++ [.select t ps, .insert t ps]) := by
      rw [_quiet_get_one_or_create, hprep]
      simp [queryOne, hq, hv, insertRow]
    simp [quiet_get_one_or_create, hc]
  · intro hq hv
    have hc : _quiet_get_one_or_create db t kwargs =
        (.error .integrityError, db₀, tr₀ ++ [.select t ps, .insert t ps]) := by
      rw [_quiet_get_one_or_create, hprep]
      simp [queryOne, hq, hv]
    simp [quiet_get_one_or_create, hc]

/-- Witness for C3: the quiet variant creating `OperatingSystem("ubuntu",
"Linux", "20.04")` on an empty store. -/
theorem quiet_variant_algorithm_witness :
    quiet_get_one_or_create ⟨[], 0⟩ OperatingSystem
        [("name", .str "ubuntu"), ("type", .str "Linux"), ("version", .str "20.04")] =
      (.ok (newRow ⟨[], 0⟩ OperatingSystem
          [("name", .str "ubuntu"), ("type", .str "Linux"), ("version", .str "20.04")]),
        ⟨([] : List Row) ++ [newRow ⟨[], 0⟩ OperatingSystem
          [("name", .str "ubuntu"), ("type", .str "Linux"), ("version", .str "20.04")]], 0 + 1⟩,
        .savepoint :: ([] ++
          [.select OperatingSystem
            [("name", .str "ubuntu"), ("type", .str "Linux"), ("version", .str "20.04")],
           .insert OperatingSystem
            [("name", .str "ubuntu"), ("type", .str "Linux"), ("version", .str "20.04")]] ++
          [.releaseSp])) :=
  (quiet_variant_algorithm ⟨[], 0⟩ ⟨[], 0⟩ OperatingSystem
      [("name", .str "ubuntu"), ("type", .str "Linux"), ("version", .str "20.04")]
      [("name", .str "ubuntu"), ("type", .str "Linux"), ("version", .str "20.04")] []
      (prepare_flat (by decide) .quiet ⟨[], 0⟩)).2.1 (by decide) (by decide)

/-! ### Claim C6 -/

/-- C6.  A lookup matching more than one row (a broken uniqueness invariant)
makes every variant surface the fatal multiple-results error rather than
silently returning one row, while a zero-match lookup does not raise but
drives the insert branch. -/
theorem multiple_matches_fatal :
    (∀ db t ps r₁ r₂ rest race, flatParams ps = true →
      queryAll db t ps = r₁ :: r₂ :: rest →
      noisey_get_one_or_create db t ps race = (.error .multipleResults, db, [.select t ps]) ∧
      quiet_get_one_or_create db t ps =
        (.error .multipleResults, db, [.savepoint, .select t ps, .rollbackSp]) ∧
      bulk_get_or_create db [(t, ps)] =
        (.error .multipleResults, db, [.savepoint, .select t ps, .rollbackSp])) ∧
    (∀ db t ps race, flatParams ps = true → queryAll db t ps = [] →
      .insert t ps ∈ (noisey_get_one_or_create db t ps race).2.2 ∧
      .insert t ps ∈ (quiet_get_one_or_create db t ps).2.2 ∧
      .insert t ps ∈ (bulk_get_or_create db [(t, ps)]).2.2) := by
  constructor
  · intro db t ps r₁ r₂ rest race hflat hq
    refine ⟨noisy_multi hflat race hq, ?_, ?_⟩
    · simp [quiet_get_one_or_create, quiet_core_multi hflat hq]
    · simp [bulk_get_or_create, bulk_loop, quiet_core_multi hflat hq]
  · intro db t ps race hflat hq
    refine ⟨?_, ?_, ?_⟩
    · cases hv : violatesUnique (applyRace db race) t ps
      · simp [noisy_create race hflat hq hv]
      · simp [noisy_conflict hflat hq hv]
    · cases hv : violatesUnique db t ps
      · simp [quiet_get_one_or_create, quiet_core_create hflat hq hv]
      · simp [quiet_get_one_or_create, quiet_core_conflict hflat hq hv]
    · cases hv : violatesUnique db t ps
      · simp [bulk_get_or_create, bulk_loop, quiet_core_create hflat hq hv]
      · simp [bulk_get_or_create, bulk_loop, quiet_core_conflict hflat hq hv]

/-- Witness for C6: two seeded rows with the same natural key (inserted
bypassing the engine) make each variant raise the multiple-results error on an
otherwise-fresh store, and a zero-match lookup leads each variant to attempt
the insert. -/
theorem multiple_matches_fatal_witness :
    (noisey_get_one_or_create
        ⟨[⟨0, OperatingSystem, [("name", .str "ubuntu")]⟩,
          ⟨1, OperatingSystem, [("name", .str "ubuntu")]⟩], 2⟩
        OperatingSystem [("name", .str "ubuntu")] [] =
      (.error .multipleResults,
        ⟨[⟨0, OperatingSystem, [("name", .str "ubuntu")]⟩,
          ⟨1, OperatingSystem, [("name", .str "ubuntu")]⟩], 2⟩,
        [.select OperatingSystem [("name", .str "ubuntu")]])) ∧
    .insert OperatingSystem [("name", .str "ubuntu")] ∈
      (quiet_get_one_or_create ⟨[], 0⟩ OperatingSystem
        [("name", .str "ubuntu")]).2.2 := by
  constructor
  · exact ((multiple_matches_fatal.1
      ⟨[⟨0, OperatingSystem, [("name", .str "ubuntu")]⟩,
        ⟨1, OperatingSystem, [("name", .str "ubuntu")]⟩], 2⟩
      OperatingSystem [("name", .str "ubuntu")]
      ⟨0, OperatingSystem, [("name", .str "ubuntu")]⟩
      ⟨1, OperatingSystem, [("name", .str "ubuntu")]⟩ [] []
      (by decide) (by decide)).1)
  · exact (multiple_matches_fatal.2 ⟨[], 0⟩ OperatingSystem
      [("name", .str "ubuntu")] [] (by decide) (by decide)).2.1

/-! ### Claim C7 -/

/-- C7.  Query-count bound for flat mappings, counting the statements the
bound enumerates (lookups, inserts): the quiet variant issues at most 2 when
no matching row exists (one failed lookup plus one insert) and exactly 1 when
a row already exists; the noisy variant issues at most 4 in the conflict case
(which also spends a rollback) and at most 2 in the non-conflict creation
case. -/
theorem query_count_bound :
    (∀ db t ps, flatParams ps = true → queryAll db t ps = [] →
      queryCount (quiet_get_one_or_create db t ps).2.2 ≤ 2) ∧
    (∀ db t ps r rest, flatParams ps = true → queryAll db t ps = r :: rest →
      queryCount (quiet_get_one_or_create db t ps).2.2 = 1) ∧
    (∀ db t ps race, flatParams ps = true → queryAll db t ps = [] →
      violatesUnique (applyRace db race) t ps = true →
      queryCount (noisey_get_one_or_create db t ps race).2.2 ≤ 4) ∧
    (∀ db t ps race, flatParams ps = true → queryAll db t ps = [] →
      violatesUnique (applyRace db race) t ps = false →
      queryCount (noisey_get_one_or_create db t ps race).2.2 ≤ 2) := by
  refine ⟨?_, ?_, ?_, ?_⟩
  · intro db t ps hflat hq
    cases hv : violatesUnique db t ps
    · simp [quiet_get_one_or_create, quiet_core_create hflat hq hv, queryCount, countedQI,
        List.filter]
    · simp [quiet_get_one_or_create, quiet_core_conflict hflat hq hv, queryCount, countedQI,
        List.filter]
  · intro db t ps r rest hflat hq
    cases rest with
    | nil =>
      simp [quiet_get_one_or_create, quiet_core_found hflat hq, queryCount, countedQI,
        List.filter]
    | cons r₂ rest' =>
      simp [quiet_get_one_or_create, quiet_core_multi hflat hq, queryCount, countedQI,
        List.filter]
  · intro db t ps race hflat hq hv
    simp [noisy_conflict hflat hq hv, queryCount, countedQI, List.filter]
  · intro db t ps race hflat hq hv
    simp [noisy_create race hflat hq hv, queryCount, countedQI, List.filter]

/-- Witness for C7: concrete counts for the quiet create case and the noisy
conflict case on small stores. -/
theorem query_count_bound_witness :
    queryCount (quiet_get_one_or_create ⟨[], 0⟩ OperatingSystem
      [("name", .str "ubuntu")]).2.2 ≤ 2 ∧
    queryCount (noisey_get_one_or_create ⟨[], 0⟩ OperatingSystem
      [("name", .str "ubuntu")]
      [(OperatingSystem, [("name", .str "ubuntu")])]).2.2 ≤ 4 :=
  ⟨query_count_bound.1 ⟨[], 0⟩ OperatingSystem [("name", .str "ubuntu")]
      (by decide) (by decide),
    query_count_bound.2.2.1 ⟨[], 0⟩ OperatingSystem [("name", .str "ubuntu")]
      [(OperatingSystem, [("name", .str "ubuntu")])] (by decide) (by decide) (by decide)⟩

/-! ### Savepoint balance and no-duplicate preservation infrastructure -/

theorem netDepth_append (a b : List Stmt) : netDepth (a ++ b) = netDepth a + netDepth b := by
  simp [netDepth]

theorem vsize_pos (value : Value) : 1 ≤ value.vsize := by
  cases value <;> simp [Value.vsize]

theorem psize_eq_zero_iff (ps : Params) : psize ps = 0 ↔ ps = [] := by
  cases ps with
  | nil => simp [psize]
  | cons kv rest =>
    obtain ⟨k, v⟩ := kv
    simp [psize]

theorem insertRow_preserves {db : DB} {t : EntityType} {ps : Params}
    (hv : violatesUnique db t ps = false) (h : AtMostOnePerKey db) :
    AtMostOnePerKey (insertRow db t ps).2 := by
  intro t' kv
  show countKey ⟨db.rows ++ [newRow db t ps], db.nextId + 1⟩ t' kv ≤ 1
  rw [countKey_append, countKey_nextId db.rows (db.nextId + 1) db.nextId, countKey_singleton]
  by_cases hc : (newRow db t ps).rtype = t' ∧ rowKey t' (newRow db t ps) = kv
  · obtain ⟨hty, hkv⟩ := hc
    have hty' : t = t' := hty
    subst hty'
    have hkey : rowKey t (newRow db t ps) = paramsKey t ps := rfl
    have h0 := (violatesUnique_eq_false_iff db t ps).mp hv
    have hdb : countKey ⟨db.rows, db.nextId⟩ t kv = 0 := by
      rw [← hkv, hkey]
      exact h0
    simp [hdb, hty, hkv, hkey]
  · rw [if_neg hc]
    have : countKey ⟨db.rows, db.nextId⟩ t' kv ≤ 1 := h t' kv
    omega

theorem insertAttempt_preserves {db : DB} (t : EntityType) (ps : Params)
    (h : AtMostOnePerKey db) : AtMostOnePerKey (insertAttempt db t ps) := by
  rw [insertAttempt]
  cases hv : violatesUnique db t ps with
  | false => simp [insertRow_preserves hv h]
  | true => simpa using h

theorem applyRace_preserves {db : DB} (race : List (EntityType × Params))
    (h : AtMostOnePerKey db) : AtMostOnePerKey (applyRace db race) := by
  induction race generalizing db with
  | nil => simpa [applyRace] using h
  | cons tp rest ih =>
    have h1 : AtMostOnePerKey (insertAttempt db tp.1 tp.2) := insertAttempt_preserves _ _ h
    have : applyRace db (tp :: rest) = applyRace (insertAttempt db tp.1 tp.2) rest := rfl
    rw [this]
    exact ih h1

/-- If the resolution step behaves (balanced trace, invariant-preserving
store), so does the whole noisy call: every exit path closes its savepoint
and preserves the no-duplicate invariant. -/
theorem noisy_wellbehaved (db : DB) (model : EntityType) (kwargs : Params)
    (race : List (EntityType × Params))
    (hbal : netDepth (_prepare_model_params .noisy db kwargs).2.2 = 0)
    (hpres : AtMostOnePerKey db →
      AtMostOnePerKey (_prepare_model_params .noisy db kwargs).2.1) :
    netDepth (noisey_get_one_or_create db model kwargs race).2.2 = 0 ∧
    (AtMostOnePerKey db →
      AtMostOnePerKey (noisey_get_one_or_create db model kwargs race).2.1) := by
  rcases hp : _prepare_model_params .noisy db kwargs with ⟨pres, db₀, tr₀⟩
  rw [hp] at hbal hpres
  simp only at hbal hpres
  rw [noisey_get_one_or_create, hp]
  cases pres with
  | error e => exact ⟨hbal, hpres⟩
  | ok ps =>
    rcases hq : queryOne db₀ model ps with e | r
    · cases e with
      | noResultFound =>
        cases hv : violatesUnique (applyRace db₀ race) model ps
        · simp only [hq, hv]
          constructor
          · simp [netDepth_append, netDepth, spDepth, show (List.map spDepth tr₀).sum = 0 from hbal]
          · intro h
            exact insertRow_preserves hv (applyRace_preserves race (hpres h))
        · simp only [hq, hv]
          constructor
          · simp [netDepth_append, netDepth, spDepth, show (List.map spDepth tr₀).sum = 0 from hbal]
          · intro h
            exact applyRace_preserves race (hpres h)
      | multipleResults =>
        simp only [hq]
        exact ⟨by simp [netDepth_append, netDepth, spDepth, show (List.map spDepth tr₀).sum = 0 from hbal], hpres⟩
      | integrityError =>
        simp only [hq]
        exact ⟨by simp [netDepth_append, netDepth, spDepth, show (List.map spDepth tr₀).sum = 0 from hbal], hpres⟩
    · simp only [hq]
      exact ⟨by simp [netDepth_append, netDepth, spDepth, show (List.map spDepth tr₀).sum = 0 from hbal], hpres⟩

/-- Counterpart of `noisy_wellbehaved` for the quiet core. -/
theorem quiet_wellbehaved (db : DB) (model : EntityType) (kwargs : Params)
    (hbal : netDepth (_prepare_model_params .quiet db kwargs).2.2 = 0)
    (hpres : AtMostOnePerKey db →
      AtMostOnePerKey (_prepare_model_params .quiet db kwargs).2.1) :
    netDepth (_quiet_get_one_or_create db model kwargs).2.2 = 0 ∧
    (AtMostOnePerKey db →
      AtMostOnePerKey (_quiet_get_one_or_create db model kwargs).2.1) := by
  rcases hp : _prepare_model_params .quiet db kwargs with ⟨pres, db₀, tr₀⟩
  rw [hp] at hbal hpres
  simp only at hbal hpres
  rw [_quiet_get_one_or_create, hp]
  cases pres with
  | error e => exact ⟨hbal, hpres⟩
  | ok ps =>
    rcases hq : queryOne db₀ model ps with e | r
    · cases e with
      | noResultFound =>
        cases hv : violatesUnique db₀ model ps
        · simp only [hq, hv]
          constructor
          · simp [netDepth_append, netDepth, spDepth, show (List.map spDepth tr₀).sum = 0 from hbal]
          · intro h
            exact insertRow_preserves hv (hpres h)
        · simp only [hq, hv]
          exact ⟨by simp [netDepth_append, netDepth, spDepth, show (List.map spDepth tr₀).sum = 0 from hbal], hpres⟩
      | multipleResults =>
        simp only [hq]
        exact ⟨by simp [netDepth_append, netDepth, spDepth, show (List.map spDepth tr₀).sum = 0 from hbal], hpres⟩
      | integrityError =>
        simp only [hq]
        exact ⟨by simp [netDepth_append, netDepth, spDepth, show (List.map spDepth tr₀).sum = 0 from hbal], hpres⟩
    · simp only [hq]
      exact ⟨by simp [netDepth_append, netDepth, spDepth, show (List.map spDepth tr₀).sum = 0 from hbal], hpres⟩

/-- Strong induction over the resolution measure: the resolver and each
resolution step keep their savepoint traces balanced and preserve the
no-duplicate invariant. -/
theorem engine_master (n : Nat) :
    (∀ kwargs : Params, psize kwargs ≤ n → ∀ v db,
      netDepth (_prepare_model_params v db kwargs).2.2 = 0 ∧
      (AtMostOnePerKey db → AtMostOnePerKey (_prepare_model_params v db kwargs).2.1)) ∧
    (∀ value : Value, value.vsize ≤ n → ∀ v db,
      netDepth (resolveValue v db value).2.2 = 0 ∧
      (AtMostOnePerKey db → AtMostOnePerKey (resolveValue v db value).2.1)) := by
  have hnon : ∀ value : Value, value.isInst = false → ∀ v db,
      netDepth (resolveValue v db value).2.2 = 0 ∧
      (AtMostOnePerKey db → AtMostOnePerKey (resolveValue v db value).2.1) := by
    intro value hins v db
    constructor
    · simp [resolveValue_not_inst hins, netDepth]
    · intro h
      simpa [resolveValue_not_inst hins] using h
  induction n with
  | zero =>
    constructor
    · intro kwargs hk v db
      have hkn : kwargs = [] := (psize_eq_zero_iff kwargs).mp (Nat.le_zero.mp hk)
      subst hkn
      rw [_prepare_model_params]
      exact ⟨by simp [netDepth], fun h => h⟩
    · intro value hv
      have := vsize_pos value
      omega
  | succ n ih =>
    obtain ⟨ihP, _⟩ := ih
    have hRV : ∀ value : Value, value.vsize ≤ n + 1 → ∀ v db,
        netDepth (resolveValue v db value).2.2 = 0 ∧
        (AtMostOnePerKey db → AtMostOnePerKey (resolveValue v db value).2.1) := by
      intro value hv v db
      cases value with
      | str s => exact hnon (.str s) rfl v db
      | int m => exact hnon (.int m) rfl v db
      | outcome o => exact hnon (.outcome o) rfl v db
      | ref i => exact hnon (.ref i) rfl v db
      | hstore m => exact hnon (.hstore m) rfl v db
      | inst t fields =>
        have hps : psize fields.publicList ≤ n := by
          have h1 := psize_publicList_le fields
          have h2 : (Value.inst t fields).vsize = 1 + fields.fsize := by
            rw [Value.vsize]
          omega
        cases v with
        | noisy =>
          have hP := ihP fields.publicList hps .noisy db
          have hN := noisy_wellbehaved db t fields.publicList [] hP.1 hP.2
          rcases hres : noisey_get_one_or_create db t fields.publicList [] with ⟨res, db', tr⟩
          rw [hres] at hN
          simp only at hN
          cases res with
          | ok r =>
            rw [resolveValue]
            simp only [hres]
            exact hN
          | error e =>
            rw [resolveValue]
            simp only [hres]
            exact hN
        | quiet =>
          have hP := ihP fields.publicList hps .quiet db
          have hQ := quiet_wellbehaved db t fields.publicList hP.1 hP.2
          rcases hres : _quiet_get_one_or_create db t fields.publicList with ⟨res, db', tr⟩
          rw [hres] at hQ
          simp only at hQ
          cases res with
          | ok r =>
            rw [resolveValue]
            simp only [hres]
            exact hQ
          | error e =>
            rw [resolveValue]
            simp only [hres]
            exact hQ
    have hPREP : ∀ kwargs : Params, psize kwargs ≤ n + 1 → ∀ v db,
        netDepth (_prepare_model_params v db kwargs).2.2 = 0 ∧
        (AtMostOnePerKey db → AtMostOnePerKey (_prepare_model_params v db kwargs).2.1) := by
      intro kwargs hk v db
      cases kwargs with
      | nil =>
        rw [_prepare_model_params]
        exact ⟨by simp [netDepth], fun h => h⟩
      | cons kv rest =>
        obtain ⟨key, value⟩ := kv
        have hsz : psize ((key, value) :: rest) = 1 + value.vsize + psize rest := by
          simp [psize]
        have hvpos := vsize_pos value
        have hvsz : value.vsize ≤ n + 1 := by omega
        have hrest : psize rest ≤ n := by omega
        rw [_prepare_model_params]
        rcases hr1 : resolveValue v db value with ⟨rv, db₁, tr₁⟩
        have hR := hRV value hvsz v db
        rw [hr1] at hR
        simp only at hR
        cases rv with
        | error e => exact hR
        | ok value' =>
          rcases hr2 : _prepare_model_params v db₁ rest with ⟨rr, db₂, tr₂⟩
          have hP2 := ihP rest hrest v db₁
          rw [hr2] at hP2
          simp only at hP2
          constructor
          · cases rr with
            | error e => simp [hr2, netDepth_append, hR.1, hP2.1]
            | ok rest' => simp [hr2, netDepth_append, hR.1, hP2.1]
          · intro h
            have hres := hP2.2 (hR.2 h)
            cases rr with
            | error e => simpa [hr2] using hres
            | ok rest' => simpa [hr2] using hres
    exact ⟨hPREP, hRV⟩

/-- Every noisy call closes all savepoints it opens, on every exit path. -/
theorem noisy_balanced (db : DB) (model : EntityType) (kwargs : Params)
    (race : List (EntityType × Params)) :
    netDepth (noisey_get_one_or_create db model kwargs race).2.2 = 0 :=
  have hP := (engine_master (psize kwargs)).1 kwargs (Nat.le_refl _) .noisy db
  (noisy_wellbehaved db model kwargs race hP.1 hP.2).1

/-- Every noisy call preserves the at-most-one-row-per-key invariant. -/
theorem noisy_preserves {db : DB} (model : EntityType) (kwargs : Params)
    (race : List (EntityType × Params)) (h : AtMostOnePerKey db) :
    AtMostOnePerKey (noisey_get_one_or_create db model kwargs race).2.1 :=
  have hP := (engine_master (psize kwargs)).1 kwargs (Nat.le_refl _) .noisy db
  (noisy_wellbehaved db model kwargs race hP.1 hP.2).2 h

/-! ### Claim C2 -/

/-- C2.  Noisy-variant race recovery: when the initial lookup misses and the
insert inside the nested sub-transaction hits the uniqueness constraint
(because of concurrent commits), only the sub-transaction is rolled back —
the store keeps the resolution work and the concurrent commits but not the
attempted insert — and the operation re-runs the lookup and returns whatever
that lookup yields; moreover no exit path of the noisy variant leaves a
nested sub-transaction open. -/
theorem noisy_race_recovery :
    (∀ db t kwargs race ps db₀ tr₀,
      _prepare_model_params .noisy db kwargs = (.ok ps, db₀, tr₀) →
      queryAll db₀ t ps = [] →
      violatesUnique (applyRace db₀ race) t ps = true →
      noisey_get_one_or_create db t kwargs race =
        (queryOne (applyRace db₀ race) t ps, applyRace db₀ race,
          tr₀ ++ [.select t ps, .savepoint, .insert t ps, .rollbackSp, .select t ps])) ∧
    (∀ db t kwargs race,
      netDepth (noisey_get_one_or_create db t kwargs race).2.2 = 0) := by
  constructor
  · intro db t kwargs race ps db₀ tr₀ hprep hq hv
    rw [noisey_get_one_or_create, hprep]
    simp [queryOne, hq, hv]
  · exact fun db t kwargs race => noisy_balanced db t kwargs race

/-- Witness for C2: a concurrent commit of the same natural key between the
lookup and the insert makes the noisy call re-query and return that
concurrently committed row with its savepoint closed. -/
theorem noisy_race_recovery_witness :
    noisey_get_one_or_create ⟨[], 0⟩ OperatingSystem
        [("name", .str "ubuntu"), ("type", .str "Linux"), ("version", .str "20.04")]
        [(OperatingSystem,
          [("name", .str "ubuntu"), ("type", .str "Linux"), ("version", .str "20.04")])] =
      (queryOne (applyRace ⟨[], 0⟩
          [(OperatingSystem,
            [("name", .str "ubuntu"), ("type", .str "Linux"), ("version", .str "20.04")])])
          OperatingSystem
          [("name", .str "ubuntu"), ("type", .str "Linux"), ("version", .str "20.04")],
        applyRace ⟨[], 0⟩
          [(OperatingSystem,
            [("name", .str "ubuntu"), ("type", .str "Linux"), ("version", .str "20.04")])],
        [] ++ [.select OperatingSystem
            [("name", .str "ubuntu"), ("type", .str "Linux"), ("version", .str "20.04")],
          .savepoint,
          .insert OperatingSystem
            [("name", .str "ubuntu"), ("type", .str "Linux"), ("version", .str "20.04")],
          .rollbackSp,
          .select OperatingSystem
            [("name", .str "ubuntu"), ("type", .str "Linux"), ("version", .str "20.04")]]) ∧
    netDepth (noisey_get_one_or_create ⟨[], 0⟩ OperatingSystem
        [("name", .str "ubuntu"), ("type", .str "Linux"), ("version", .str "20.04")]
        [(OperatingSystem,
          [("name", .str "ubuntu"), ("type", .str "Linux"), ("version", .str "20.04")])]).2.2
      = 0 :=
  ⟨noisy_race_recovery.1 ⟨[], 0⟩ OperatingSystem
      [("name", .str "ubuntu"), ("type", .str "Linux"), ("version", .str "20.04")]
      [(OperatingSystem,
        [("name", .str "ubuntu"), ("type", .str "Linux"), ("version", .str "20.04")])]
      [("name", .str "ubuntu"), ("type", .str "Linux"), ("version", .str "20.04")]
      ⟨[], 0⟩ []
      (prepare_flat (by decide) .noisy ⟨[], 0⟩) (by decide) (by decide),
    noisy_race_recovery.2 ⟨[], 0⟩ OperatingSystem
      [("name", .str "ubuntu"), ("type", .str "Linux"), ("version", .str "20.04")]
      [(OperatingSystem,
        [("name", .str "ubuntu"), ("type", .str "Linux"), ("version", .str "20.04")])]⟩

/-! ### Claim C8 -/

/-- One noisy get-or-create call: its target type, its kwargs, and the insert
attempts concurrent sessions commit between its lookup and its insert. -/
structure NoisyCall where
  model : EntityType
  kwargs : Params
  race : List (EntityType × Params)

/-- The store after a sequence of noisy calls of one session, interleaved
with the concurrent sessions' commits carried by each call. -/
def runNoisySeq (db : DB) : List NoisyCall → DB
  | [] => db
  | c :: cs => runNoisySeq (noisey_get_one_or_create db c.model c.kwargs c.race).2.1 cs

/-- C8.  No-duplicate invariant under concurrency: after any sequence of
noisy-variant calls interleaved with any concurrent sessions' guarded
commits, a store with at most one row per natural key still has at most one
row per natural key for every entity type. -/
theorem no_duplicate_invariant_concurrent (db : DB) (calls : List NoisyCall)
    (h : AtMostOnePerKey db) : AtMostOnePerKey (runNoisySeq db calls) := by
  induction calls generalizing db with
  | nil => simpa [runNoisySeq] using h
  | cons c cs ih =>
    rw [runNoisySeq]
    exact ih _ (noisy_preserves c.model c.kwargs c.race h)

/-- Witness for C8: two noisy calls for the same key racing against a
concurrent insert of that key leave at most one `OperatingSystem` row per
key. -/
theorem no_duplicate_invariant_concurrent_witness :
    countKey (runNoisySeq ⟨[], 0⟩
        [⟨OperatingSystem,
          [("name", .str "ubuntu"), ("type", .str "Linux"), ("version", .str "20.04")],
          [(OperatingSystem,
            [("name", .str "ubuntu"), ("type", .str "Linux"), ("version", .str "20.04")])]⟩,
         ⟨OperatingSystem,
          [("name", .str "ubuntu"), ("type", .str "Linux"), ("version", .str "20.04")],
          []⟩])
      OperatingSystem
      (paramsKey OperatingSystem
        [("name", .str "ubuntu"), ("type", .str "Linux"), ("version", .str "20.04")]) ≤ 1 :=
  no_duplicate_invariant_concurrent ⟨[], 0⟩
    [⟨OperatingSystem,
      [("name", .str "ubuntu"), ("type", .str "Linux"), ("version", .str "20.04")],
      [(OperatingSystem,
        [("name", .str "ubuntu"), ("type", .str "Linux"), ("version", .str "20.04")])]⟩,
     ⟨OperatingSystem,
      [("name", .str "ubuntu"), ("type", .str "Linux"), ("version", .str "20.04")],
      []⟩]
    (by intro t kv; simp [countKey]) OperatingSystem
    (paramsKey OperatingSystem
      [("name", .str "ubuntu"), ("type", .str "Linux"), ("version", .str "20.04")])

/-! ### Claim C9 -/

/-- The strategy callable handed to `_prepare_model_params` (the Python code
passes `noisey_get_one_or_create` resp. `_quiet_get_one_or_create` itself;
recursive noisy calls see no additional concurrent commits). -/
def goocOf : Variant → DB → EntityType → Params → Except DbErr Row × DB × List Stmt
  | .noisy, db, t, ps => noisey_get_one_or_create db t ps []
  | .quiet, db, t, ps => _quiet_get_one_or_create db t ps

/-- The resolver contract, key by key: a non-instance value passes through
unchanged with no store effect, while an entity-instance value is replaced by
a reference to the row obtained by get-or-creating the instance's public
attributes with the same strategy, threading the store left to right. -/
inductive ResolvedChain (v : Variant) : DB → Params → Params → DB → Prop where
  | nil (db : DB) : ResolvedChain v db [] [] db
  | passthrough (db db' : DB) (k : String) (value : Value) (rest rest' : Params)
      (hscalar : value.isInst = false)
      (hrest : ResolvedChain v db rest rest' db') :
      ResolvedChain v db ((k, value) :: rest) ((k, value) :: rest') db'
  | entity (db db₁ db' : DB) (k : String) (t : EntityType) (fields : Fields)
      (r : Row) (tr : List Stmt) (rest rest' : Params)
      (hcall : goocOf v db t fields.publicList = (.ok r, db₁, tr))
      (hrest : ResolvedChain v db₁ rest rest' db') :
      ResolvedChain v db ((k, .inst t fields) :: rest) ((k, .ref r.rid) :: rest') db'

theorem resolveValue_inst_ok {v : Variant} {db db₁ : DB} {t : EntityType}
    {fields : Fields} {value' : Value} {tr₁ : List Stmt}
    (h : resolveValue v db (.inst t fields) = (.ok value', db₁, tr₁)) :
    ∃ r, goocOf v db t fields.publicList = (.ok r, db₁, tr₁) ∧ value' = .ref r.rid := by
  cases v with
  | noisy =>
    rw [resolveValue] at h
    rcases hg : noisey_get_one_or_create db t fields.publicList [] with ⟨res, db'', tr''⟩
    rw [hg] at h
    cases res with
    | ok r =>
      simp at h
      exact ⟨r, by simp [goocOf, hg, h.2.1, h.2.2], h.1.symm⟩
    | error e => simp at h
  | quiet =>
    rw [resolveValue] at h
    rcases hg : _quiet_get_one_or_create db t fields.publicList with ⟨res, db'', tr''⟩
    rw [hg] at h
    cases res with
    | ok r =>
      simp at h
      exact ⟨r, by simp [goocOf, hg, h.2.1, h.2.2], h.1.symm⟩
    | error e => simp at h

/-- C9.  Resolver mapping contract: a successful resolution returns a mapping
with exactly the same keys, in which every entity-instance value has been
replaced by the result of recursively get-or-creating that instance's public
attribute values (underscore-named attributes excluded) with the same
variant, and every other value passes through unchanged. -/
theorem resolver_mapping_contract (v : Variant) (db db' : DB) (kwargs ps : Params)
    (tr : List Stmt)
    (h : _prepare_model_params v db kwargs = (.ok ps, db', tr)) :
    ps.map Prod.fst = kwargs.map Prod.fst ∧ ResolvedChain v db kwargs ps db' := by
  induction kwargs generalizing db ps tr with
  | nil =>
    rw [_prepare_model_params] at h
    simp at h
    obtain ⟨hps, hdb, -⟩ := h
    subst hps
    subst hdb
    exact ⟨rfl, .nil db⟩
  | cons kv rest ih =>
    obtain ⟨key, value⟩ := kv
    rw [_prepare_model_params] at h
    rcases hr1 : resolveValue v db value with ⟨rv, db₁, tr₁⟩
    rw [hr1] at h
    cases rv with
    | error e => simp at h
    | ok value' =>
      rcases hr2 : _prepare_model_params v db₁ rest with ⟨rr, db₂, tr₂⟩
      simp only [hr2] at h
      cases rr with
      | error e => simp at h
      | ok rest' =>
        simp at h
        obtain ⟨hps, hdb, -⟩ := h
        subst hps
        subst hdb
        obtain ⟨hkeys, hchain⟩ := ih db₁ rest' tr₂ hr2
        constructor
        · simp [hkeys]
        · cases hins : value.isInst with
          | false =>
            have hval := resolveValue_not_inst hins v db
            rw [hval] at hr1
            simp at hr1
            obtain ⟨hv', hdb₁, -⟩ := hr1
            subst hv'
            subst hdb₁
            exact .passthrough db db₂ key value rest rest' hins hchain
          | true =>
            cases value with
            | inst t fields =>
              obtain ⟨r, hcall, hval'⟩ := resolveValue_inst_ok hr1
              subst hval'
              exact .entity db db₁ db₂ key t fields r tr₁ rest rest' hcall hchain
            | str s => simp [Value.isInst] at hins
            | int m => simp [Value.isInst] at hins
            | outcome o => simp [Value.isInst] at hins
            | ref i => simp [Value.isInst] at hins
            | hstore m => simp [Value.isInst] at hins

/-- Witness for C9: resolving a mapping holding one scalar and one transient
`OperatingSystem` instance (with an underscore-named bookkeeping attribute)
keeps the keys, passes the scalar through, and replaces the instance by a
reference to the created row. -/
theorem resolver_mapping_contract_witness :
    ([("vut", Value.str "1.2.1"), ("os", Value.ref 0)].map Prod.fst =
      [("vut", Value.str "1.2.1"),
       ("os", Value.inst OperatingSystem
         (.fcons "_sa_instance_state" (.int 0)
           (.fcons "name" (.str "ubuntu")
             (.fcons "type" (.str "Linux")
               (.fcons "version" (.str "20.04") .fnil)))))].map Prod.fst) ∧
    ResolvedChain .quiet ⟨[], 0⟩
      [("vut", Value.str "1.2.1"),
       ("os", Value.inst OperatingSystem
         (.fcons "_sa_instance_state" (.int 0)
           (.fcons "name" (.str "ubuntu")
             (.fcons "type" (.str "Linux")
               (.fcons "version" (.str "20.04") .fnil)))))]
      [("vut", Value.str "1.2.1"), ("os", Value.ref 0)]
      ⟨[⟨0, OperatingSystem,
        [("name", .str "ubuntu"), ("type", .str "Linux"), ("version", .str "20.04")]⟩], 1⟩ :=
  resolver_mapping_contract .quiet ⟨[], 0⟩
    ⟨[⟨0, OperatingSystem,
      [("name", .str "ubuntu"), ("type", .str "Linux"), ("version", .str "20.04")]⟩], 1⟩
    [("vut", Value.str "1.2.1"),
     ("os", Value.inst OperatingSystem
       (.fcons "_sa_instance_state" (.int 0)
         (.fcons "name" (.str "ubuntu")
           (.fcons "type" (.str "Linux")
             (.fcons "version" (.str "20.04") .fnil)))))]
    [("vut", Value.str "1.2.1"), ("os", Value.ref 0)]
    [.select OperatingSystem
      [("name", .str "ubuntu"), ("type", .str "Linux"), ("version", .str "20.04")],
     .insert OperatingSystem
      [("name", .str "ubuntu"), ("type", .str "Linux"), ("version", .str "20.04")]]
    (by simp +decide [_prepare_model_params, resolveValue, _quiet_get_one_or_create,
      queryOne, queryAll, violatesUnique, insertRow, newRow, matchesParams,
      Fields.publicList, underscoreLead])

/-! ### Claims C10 and C5 -/

/-- The value the `instances` variable holds after the loop, given the
accumulator it started from and the rows resolved so far. -/
def lastOr (acc : PyVal) (rs : List Row) : PyVal :=
  match rs.getLast? with
  | none => acc
  | some r => .row r

theorem lastOr_cons (acc : PyVal) (r : Row) (rs : List Row) :
    lastOr acc (r :: rs) = lastOr (.row r) rs := by
  cases rs with
  | nil => simp [lastOr]
  | cons r₂ rs' =>
    rcases hg : (r₂ :: rs').getLast? with _ | L
    · rw [List.getLast?_eq_none_iff] at hg
      cases hg
    · simp [lastOr, List.getLast?_cons_cons, hg]

/-- The loop of `bulk_get_or_create` computes the same per-item resolutions
as `quietSeq` but keeps only the last resolved instance. -/
theorem bulk_loop_quietSeq (objects : List (EntityType × Params)) :
    ∀ db acc,
      (∀ rs db₂, quietSeq db objects = (.ok rs, db₂) →
        ∃ tr, bulk_loop db objects acc = (.ok (lastOr acc rs), db₂, tr)) ∧
      (∀ e db₂, quietSeq db objects = (.error e, db₂) →
        ∃ tr, bulk_loop db objects acc = (.error e, db₂, tr)) := by
  induction objects with
  | nil =>
    intro db acc
    constructor
    · intro rs db₂ hqs
      rw [quietSeq] at hqs
      simp at hqs
      obtain ⟨hrs, hdb⟩ := hqs
      subst hrs
      subst hdb
      exact ⟨[], by simp [bulk_loop, lastOr]⟩
    · intro e db₂ hqs
      rw [quietSeq] at hqs
      simp at hqs
  | cons obj rest ih =>
    obtain ⟨model, kwargs⟩ := obj
    intro db acc
    rcases hq : _quiet_get_one_or_create db model kwargs with ⟨res, db', tr⟩
    cases res with
    | error e =>
      constructor
      · intro rs db₂ hqs
        rw [quietSeq, hq] at hqs
        simp at hqs
      · intro e' db₂ hqs
        rw [quietSeq, hq] at hqs
        simp at hqs
        obtain ⟨he, hdb⟩ := hqs
        subst he
        subst hdb
        exact ⟨tr, by rw [bulk_loop, hq]⟩
    | ok r =>
      rcases hrest : quietSeq db' rest with ⟨res₂, db₂'⟩
      obtain ⟨ihok, iherr⟩ := ih db' (.row r)
      constructor
      · intro rs db₂ hqs
        rw [quietSeq, hq] at hqs
        simp only [hrest] at hqs
        cases res₂ with
        | error e => simp at hqs
        | ok rs₂ =>
          simp at hqs
          obtain ⟨hrs, hdb⟩ := hqs
          subst hrs
          subst hdb
          obtain ⟨tr', hloop⟩ := ihok rs₂ _ hrest
          refine ⟨tr ++ tr', ?_⟩
          rw [bulk_loop, hq]
          simp [hloop, lastOr_cons]
      · intro e db₂ hqs
        rw [quietSeq, hq] at hqs
        simp only [hrest] at hqs
        cases res₂ with
        | ok rs₂ => simp at hqs
        | error e' =>
          simp at hqs
          obtain ⟨he, hdb⟩ := hqs
          subst he
          subst hdb
          obtain ⟨tr', hloop⟩ := iherr e' _ hrest
          refine ⟨tr ++ tr', ?_⟩
          rw [bulk_loop, hq]
          simp [hloop]

theorem quietSeq_ok_length (objects : List (EntityType × Params)) :
    ∀ db rs db₂, quietSeq db objects = (.ok rs, db₂) → rs.length = objects.length := by
  induction objects with
  | nil =>
    intro db rs db₂ h
    rw [quietSeq] at h
    simp at h
    simp [h.1]
  | cons obj rest ih =>
    obtain ⟨model, kwargs⟩ := obj
    intro db rs db₂ h
    rw [quietSeq] at h
    rcases hq : _quiet_get_one_or_create db model kwargs with ⟨qr, dbq, trq⟩
    rw [hq] at h
    cases qr with
    | error e => simp at h
    | ok r₀ =>
      rcases hrest : quietSeq dbq rest with ⟨res₂, db₂''⟩
      simp only [hrest] at h
      cases res₂ with
      | error e => simp at h
      | ok rs₂ =>
        simp at h
        obtain ⟨hrs, -⟩ := h
        subst hrs
        simp [ih dbq rs₂ db₂'' hrest]

/-- C10.  The empty batch returns the empty list, issues only the shared
savepoint statements, and leaves the store unchanged; a successful nonempty
batch returns not a list but the single resolved instance of the last pair
(the last element of the per-item resolutions). -/
theorem bulk_empty_and_last :
    (∀ db, bulk_get_or_create db [] = (.ok (.list []), db, [.savepoint, .releaseSp])) ∧
    (∀ db objects res db' tr, objects ≠ [] →
      bulk_get_or_create db objects = (.ok res, db', tr) →
      ∃ r rs, res = .row r ∧ (quietSeq db objects).1 = .ok rs ∧ rs.getLast? = some r) := by
  constructor
  · intro db
    simp [bulk_get_or_create, bulk_loop]
  · intro db objects res db' tr hne hb
    rcases hqs : quietSeq db objects with ⟨qres, db₂⟩
    cases qres with
    | error e =>
      obtain ⟨tr', hloop⟩ := (bulk_loop_quietSeq objects db (.list [])).2 e db₂ hqs
      rw [bulk_get_or_create, hloop] at hb
      simp at hb
    | ok rs =>
      obtain ⟨tr', hloop⟩ := (bulk_loop_quietSeq objects db (.list [])).1 rs db₂ hqs
      rw [bulk_get_or_create, hloop] at hb
      simp at hb
      obtain ⟨hres, -, -⟩ := hb
      have hlen := quietSeq_ok_length objects db rs db₂ hqs
      cases hgl : rs.getLast? with
      | none =>
        rw [List.getLast?_eq_none_iff] at hgl
        subst hgl
        cases objects with
        | nil => exact absurd rfl hne
        | cons o os => simp at hlen
      | some L =>
        refine ⟨L, rs, ?_, ?_, hgl⟩
        · rw [← hres]
          simp [lastOr, hgl]
        · rfl

/-- Witness for C10: the empty batch on a concrete store, and a singleton
batch returning a row (not a list). -/
theorem bulk_empty_and_last_witness :
    bulk_get_or_create ⟨[], 0⟩ [] = (.ok (.list []), ⟨[], 0⟩, [.savepoint, .releaseSp]) ∧
    (∃ r rs, PyVal.row ⟨0, OperatingSystem, [("name", Value.str "ubuntu")]⟩ = .row r ∧
      (quietSeq ⟨[], 0⟩ [(OperatingSystem, [("name", Value.str "ubuntu")])]).1 = .ok rs ∧
      rs.getLast? = some r) :=
  ⟨bulk_empty_and_last.1 ⟨[], 0⟩,
    bulk_empty_and_last.2 ⟨[], 0⟩ [(OperatingSystem, [("name", Value.str "ubuntu")])]
      (.row ⟨0, OperatingSystem, [("name", Value.str "ubuntu")]⟩)
      ⟨[⟨0, OperatingSystem, [("name", Value.str "ubuntu")]⟩], 1⟩
      [.savepoint, .select OperatingSystem [("name", Value.str "ubuntu")],
        .insert OperatingSystem [("name", Value.str "ubuntu")], .releaseSp]
      (by simp)
      (by simp [bulk_get_or_create, bulk_loop, _quiet_get_one_or_create,
        _prepare_model_params, resolveValue, queryOne, queryAll, violatesUnique,
        insertRow, newRow, matchesParams])⟩

/-- C5 (code defect demonstration).  `bulk_get_or_create` rebinds its
`instances` variable instead of appending: on a two-item batch it returns the
single resolved instance of the second pair, not the ordered list of both
per-item resolutions. -/
theorem bulk_returns_last_not_list :
    (bulk_get_or_create ⟨[], 0⟩
        [(OperatingSystem,
          [("name", .str "ubuntu"), ("type", .str "Linux"), ("version", .str "20.04")]),
         (OperatingSystem,
          [("name", .str "ubuntu"), ("type", .str "Linux"), ("version", .str "18.04")])]).1
      = .ok (.row ⟨1, OperatingSystem,
          [("name", .str "ubuntu"), ("type", .str "Linux"), ("version", .str "18.04")]⟩) ∧
    (quietSeq ⟨[], 0⟩
        [(OperatingSystem,
          [("name", .str "ubuntu"), ("type", .str "Linux"), ("version", .str "20.04")]),
         (OperatingSystem,
          [("name", .str "ubuntu"), ("type", .str "Linux"), ("version", .str "18.04")])]).1
      = .ok [⟨0, OperatingSystem,
          [("name", .str "ubuntu"), ("type", .str "Linux"), ("version", .str "20.04")]⟩,
        ⟨1, OperatingSystem,
          [("name", .str "ubuntu"), ("type", .str "Linux"), ("version", .str "18.04")]⟩] ∧
    PyVal.row (⟨1, OperatingSystem,
        [("name", .str "ubuntu"), ("type", .str "Linux"), ("version", .str "18.04")]⟩ : Row) ≠
      PyVal.list [⟨0, OperatingSystem,
          [("name", .str "ubuntu"), ("type", .str "Linux"), ("version", .str "20.04")]⟩,
        ⟨1, OperatingSystem,
          [("name", .str "ubuntu"), ("type", .str "Linux"), ("version", .str "18.04")]⟩] := by
  refine ⟨?_, ?_, by simp⟩
  · simp +decide [bulk_get_or_create, bulk_loop, _quiet_get_one_or_create,
      _prepare_model_params, resolveValue, queryOne, queryAll, violatesUnique,
      insertRow, newRow, matchesParams, rowKey, paramsKey, getVal, OperatingSystem]
  · simp +decide [quietSeq, _quiet_get_one_or_create, _prepare_model_params, resolveValue,
      queryOne, queryAll, violatesUnique, insertRow, newRow, matchesParams, rowKey,
      paramsKey, getVal, OperatingSystem]

/-! ### Claim C4 -/

theorem map_eq_map_mem {α β : Type} {f g : α → β} {l : List α}
    (h : l.map f = l.map g) {x : α} (hx : x ∈ l) : f x = g x := by
  induction l with
  | nil => simp at hx
  | cons a l ih =>
    simp only [List.map_cons, List.cons.injEq] at h
    rcases List.mem_cons.mp hx with hxa | hxl
    · subst hxa
      exact h.1
    · exact ih h.2 hxl

/-- In a well-formed store no row field can reference the id the next insert
will allocate. -/
theorem wfdb_no_fresh_ref {db : DB} (hwf : WfDB db = true) {r : Row}
    (hr : r ∈ db.rows) (k : String) :
    getVal r.fields k ≠ some (.ref db.nextId) := by
  intro hcontra
  have hmem := mem_of_getVal_eq_some hcontra
  simp only [WfDB, List.all_eq_true] at hwf
  have hrw := hwf r hr
  simp only [Bool.and_eq_true, List.all_eq_true] at hrw
  have hb := hrw.2 (k, .ref db.nextId) hmem
  simp only [refsBelow, decide_eq_true_eq] at hb
  omega

/-- C4.  Nested resolution: one get-or-create call (any entry point) on a
parent whose field mapping holds one not-yet-persisted nested entity
instance creates exactly one row for the nested entity and exactly one row
for the parent, and the parent row's foreign-key field references the
canonical (unique) row for the nested entity's natural key. -/
theorem nested_resolution_canonical
    (c : CallKind) (db : DB) (pt ct : EntityType) (pre post : Params)
    (k : String) (cf : Fields)
    (hwf : WfDB db = true)
    (hct : ct ≠ pt)
    (hkmem : k ∈ pt.naturalKey)
    (hpreflat : flatParams pre = true) (hpostflat : flatParams post = true)
    (hcflat : flatParams cf.publicList = true)
    (hccover : ∀ k' ∈ ct.naturalKey, (getVal cf.publicList k').isSome)
    (hcfresh : countKey db ct (paramsKey ct cf.publicList) = 0)
    (hnodup : ((pre ++ (k, Value.inst ct cf) :: post).map Prod.fst).Nodup) :
    runCall c db pt (pre ++ (k, Value.inst ct cf) :: post) =
      (.ok ⟨db.nextId + 1, pt, pre ++ (k, Value.ref db.nextId) :: post⟩,
        ⟨db.rows ++ [⟨db.nextId, ct, cf.publicList⟩,
          ⟨db.nextId + 1, pt, pre ++ (k, Value.ref db.nextId) :: post⟩],
          db.nextId + 2⟩) ∧
    countKey ⟨db.rows ++ [⟨db.nextId, ct, cf.publicList⟩,
        ⟨db.nextId + 1, pt, pre ++ (k, Value.ref db.nextId) :: post⟩], db.nextId + 2⟩
      ct (paramsKey ct cf.publicList) = 1 ∧
    countKey ⟨db.rows ++ [⟨db.nextId, ct, cf.publicList⟩,
        ⟨db.nextId + 1, pt, pre ++ (k, Value.ref db.nextId) :: post⟩], db.nextId + 2⟩
      pt (paramsKey pt (pre ++ (k, Value.ref db.nextId) :: post)) = 1 ∧
    getVal (pre ++ (k, Value.ref db.nextId) :: post) k = some (.ref db.nextId) ∧
    rowKey ct ⟨db.nextId, ct, cf.publicList⟩ = paramsKey ct cf.publicList := by
  have hqc : queryAll db ct cf.publicList = [] := queryAll_eq_nil_of_fresh hccover hcfresh
  have hvc : violatesUnique db ct cf.publicList = false :=
    (violatesUnique_eq_false_iff db ct cf.publicList).mpr hcfresh
  have hrvN : resolveValue .noisy db (.inst ct cf) =
      (.ok (.ref db.nextId),
        ⟨db.rows ++ [⟨db.nextId, ct, cf.publicList⟩], db.nextId + 1⟩,
        [.select ct cf.publicList, .savepoint, .insert ct cf.publicList, .releaseSp]) := by
    have hn := noisy_create [] hcflat hqc (by rw [applyRace_nil]; exact hvc)
    rw [applyRace_nil] at hn
    rw [resolveValue]
    simp [hn, newRow]
  have hrvQ : resolveValue .quiet db (.inst ct cf) =
      (.ok (.ref db.nextId),
        ⟨db.rows ++ [⟨db.nextId, ct, cf.publicList⟩], db.nextId + 1⟩,
        [.select ct cf.publicList, .insert ct cf.publicList]) := by
    have hn := quiet_core_create hcflat hqc hvc
    rw [resolveValue]
    simp [hn, newRow]
  have hmidN : _prepare_model_params .noisy db ((k, Value.inst ct cf) :: post) =
      (.ok ((k, Value.ref db.nextId) :: post),
        ⟨db.rows ++ [⟨db.nextId, ct, cf.publicList⟩], db.nextId + 1⟩,
        [.select ct cf.publicList, .savepoint, .insert ct cf.publicList, .releaseSp]) := by
    rw [_prepare_model_params]
    simp [hrvN, prepare_flat hpostflat .noisy
      ⟨db.rows ++ [⟨db.nextId, ct, cf.publicList⟩], db.nextId + 1⟩]
  have hmidQ : _prepare_model_params .quiet db ((k, Value.inst ct cf) :: post) =
      (.ok ((k, Value.ref db.nextId) :: post),
        ⟨db.rows ++ [⟨db.nextId, ct, cf.publicList⟩], db.nextId + 1⟩,
        [.select ct cf.publicList, .insert ct cf.publicList]) := by
    rw [_prepare_model_params]
    simp [hrvQ, prepare_flat hpostflat .quiet
      ⟨db.rows ++ [⟨db.nextId, ct, cf.publicList⟩], db.nextId + 1⟩]
  have hprepN : _prepare_model_params .noisy db (pre ++ (k, Value.inst ct cf) :: post) =
      (.ok (pre ++ (k, Value.ref db.nextId) :: post),
        ⟨db.rows ++ [⟨db.nextId, ct, cf.publicList⟩], db.nextId + 1⟩,
        [.select ct cf.publicList, .savepoint, .insert ct cf.publicList, .releaseSp]) := by
    rw [prepare_flat_append hpreflat, hmidN]
  have hprepQ : _prepare_model_params .quiet db (pre ++ (k, Value.inst ct cf) :: post) =
      (.ok (pre ++ (k, Value.ref db.nextId) :: post),
        ⟨db.rows ++ [⟨db.nextId, ct, cf.publicList⟩], db.nextId + 1⟩,
        [.select ct cf.publicList, .insert ct cf.publicList]) := by
    rw [prepare_flat_append hpreflat, hmidQ]
  have hmemmid : (k, Value.ref db.nextId) ∈ pre ++ (k, Value.ref db.nextId) :: post := by
    simp
  have hkeys : (pre ++ (k, Value.ref db.nextId) :: post).map Prod.fst =
      (pre ++ (k, Value.inst ct cf) :: post).map Prod.fst := by
    simp
  have hnodup2 : ((pre ++ (k, Value.ref db.nextId) :: post).map Prod.fst).Nodup := by
    rw [hkeys]
    exact hnodup
  have hpk : getVal (pre ++ (k, Value.ref db.nextId) :: post) k =
      some (.ref db.nextId) := getVal_eq_some_of_mem hnodup2 hmemmid
  have hq2 : queryAll ⟨db.rows ++ [⟨db.nextId, ct, cf.publicList⟩], db.nextId + 1⟩ pt
      (pre ++ (k, Value.ref db.nextId) :: post) = [] := by
    simp only [queryAll, List.filter_eq_nil_iff]
    intro r hr
    simp only [Bool.and_eq_true, beq_iff_eq, not_and]
    intro hty hm
    rcases List.mem_append.mp hr with hold | hchild
    · simp only [matchesParams, List.all_eq_true] at hm
      have hgot := hm (k, Value.ref db.nextId) hmemmid
      simp only [beq_iff_eq] at hgot
      exact wfdb_no_fresh_ref hwf hold k hgot
    · simp only [List.mem_singleton] at hchild
      subst hchild
      exact hct hty
  have hcnt2 : countKey ⟨db.rows ++ [⟨db.nextId, ct, cf.publicList⟩], db.nextId + 1⟩ pt
      (paramsKey pt (pre ++ (k, Value.ref db.nextId) :: post)) = 0 := by
    simp only [countKey, List.length_eq_zero, List.filter_eq_nil_iff]
    intro r hr
    simp only [Bool.and_eq_true, beq_iff_eq, not_and]
    intro hty hkeq
    rcases List.mem_append.mp hr with hold | hchild
    · simp only [rowKey, paramsKey] at hkeq
      have hcomp := map_eq_map_mem hkeq hkmem
      rw [hpk] at hcomp
      exact wfdb_no_fresh_ref hwf hold k hcomp
    · simp only [List.mem_singleton] at hchild
      subst hchild
      exact hct hty
  have hv2 : violatesUnique ⟨db.rows ++ [⟨db.nextId, ct, cf.publicList⟩], db.nextId + 1⟩ pt
      (pre ++ (k, Value.ref db.nextId) :: post) = false :=
    (violatesUnique_eq_false_iff _ _ _).mpr hcnt2
  have hcoreN : noisey_get_one_or_create db pt (pre ++ (k, Value.inst ct cf) :: post) [] =
      (.ok ⟨db.nextId + 1, pt, pre ++ (k, Value.ref db.nextId) :: post⟩,
        ⟨db.rows ++ [⟨db.nextId, ct, cf.publicList⟩,
          ⟨db.nextId + 1, pt, pre ++ (k, Value.ref db.nextId) :: post⟩], db.nextId + 2⟩,
        [.select ct cf.publicList, .savepoint, .insert ct cf.publicList, .releaseSp,
          .select pt (pre ++ (k, Value.ref db.nextId) :: post), .savepoint,
          .insert pt (pre ++ (k, Value.ref db.nextId) :: post), .releaseSp]) := by
    rw [noisey_get_one_or_create, hprepN]
    simp [queryOne, hq2, applyRace, hv2, insertRow, newRow]
  have hcoreQ : _quiet_get_one_or_create db pt (pre ++ (k, Value.inst ct cf) :: post) =
      (.ok ⟨db.nextId + 1, pt, pre ++ (k, Value.ref db.nextId) :: post⟩,
        ⟨db.rows ++ [⟨db.nextId, ct, cf.publicList⟩,
          ⟨db.nextId + 1, pt, pre ++ (k, Value.ref db.nextId) :: post⟩], db.nextId + 2⟩,
        [.select ct cf.publicList, .insert ct cf.publicList,
          .select pt (pre ++ (k, Value.ref db.nextId) :: post),
          .insert pt (pre ++ (k, Value.ref db.nextId) :: post)]) := by
    rw [_quiet_get_one_or_create, hprepQ]
    simp [queryOne, hq2, hv2, insertRow, newRow]
  refine ⟨?_, ?_, ?_, hpk, rfl⟩
  · cases c with
    | noisyCall => simp [runCall, hcoreN]
    | quietCall => simp [runCall, quiet_get_one_or_create, hcoreQ]
    | bulkCall => simp [runCall, bulk_get_or_create, bulk_loop, hcoreQ]
  · have hsplit : (db.rows ++ [(⟨db.nextId, ct, cf.publicList⟩ : Row),
        ⟨db.nextId + 1, pt, pre ++ (k, Value.ref db.nextId) :: post⟩]) =
        (db.rows ++ [⟨db.nextId, ct, cf.publicList⟩]) ++
          [⟨db.nextId + 1, pt, pre ++ (k, Value.ref db.nextId) :: post⟩] := by
      simp
    rw [hsplit, countKey_append, countKey_append, countKey_singleton, countKey_singleton]
    have h0 : countKey ⟨db.rows, db.nextId + 2⟩ ct (paramsKey ct cf.publicList) = 0 := hcfresh
    rw [h0]
    rw [if_pos (show (⟨db.nextId, ct, cf.publicList⟩ : Row).rtype = ct ∧
      rowKey ct ⟨db.nextId, ct, cf.publicList⟩ = paramsKey ct cf.publicList from ⟨rfl, rfl⟩)]
    rw [if_neg (show ¬((⟨db.nextId + 1, pt, pre ++ (k, Value.ref db.nextId) :: post⟩ :
        Row).rtype = ct ∧ _) from fun hcc => hct hcc.1.symm)]
  · have hsplit : (db.rows ++ [(⟨db.nextId, ct, cf.publicList⟩ : Row),
        ⟨db.nextId + 1, pt, pre ++ (k, Value.ref db.nextId) :: post⟩]) =
        (db.rows ++ [⟨db.nextId, ct, cf.publicList⟩]) ++
          [⟨db.nextId + 1, pt, pre ++ (k, Value.ref db.nextId) :: post⟩] := by
      simp
    rw [hsplit, countKey_append, countKey_append, countKey_singleton, countKey_singleton]
    have h0 : countKey ⟨db.rows, db.nextId + 2⟩ pt
        (paramsKey pt (pre ++ (k, Value.ref db.nextId) :: post)) = 0 := by
      have hdec := hcnt2
      rw [countKey_append] at hdec
      have := countKey_nextId db.rows (db.nextId + 2) (db.nextId + 1) pt
        (paramsKey pt (pre ++ (k, Value.ref db.nextId) :: post))
      omega
    rw [h0]
    rw [if_neg (show ¬((⟨db.nextId, ct, cf.publicList⟩ : Row).rtype = pt ∧ _) from
      fun hcc => hct hcc.1)]
    rw [if_pos (show (⟨db.nextId + 1, pt, pre ++ (k, Value.ref db.nextId) :: post⟩ :
        Row).rtype = pt ∧ rowKey pt ⟨db.nextId + 1, pt,
          pre ++ (k, Value.ref db.nextId) :: post⟩ =
        paramsKey pt (pre ++ (k, Value.ref db.nextId) :: post) from ⟨rfl, rfl⟩)]

/-- Witness for C4: a quiet call on a `TestSpec`-typed mapping nesting a
transient `OperatingSystem` creates one OS row and one spec row, the spec
row's `"os"` field referencing the OS row. -/
theorem nested_resolution_canonical_witness :
    runCall .quietCall ⟨[], 0⟩ TestSpec
      ([("name", Value.str "t")] ++
        ("os", Value.inst OperatingSystem
          (.fcons "name" (.str "ubuntu")
            (.fcons "type" (.str "Linux")
              (.fcons "version" (.str "20.04") .fnil)))) :: []) =
      (.ok ⟨1, TestSpec, [("name", Value.str "t"), ("os", Value.ref 0)]⟩,
        ⟨[⟨0, OperatingSystem,
            [("name", .str "ubuntu"), ("type", .str "Linux"), ("version", .str "20.04")]⟩,
          ⟨1, TestSpec, [("name", Value.str "t"), ("os", Value.ref 0)]⟩], 2⟩) ∧
    countKey ⟨[⟨0, OperatingSystem,
        [("name", .str "ubuntu"), ("type", .str "Linux"), ("version", .str "20.04")]⟩,
      ⟨1, TestSpec, [("name", Value.str "t"), ("os", Value.ref 0)]⟩], 2⟩
      OperatingSystem (paramsKey OperatingSystem
        [("name", .str "ubuntu"), ("type", .str "Linux"), ("version", .str "20.04")]) = 1 ∧
    countKey ⟨[⟨0, OperatingSystem,
        [("name", .str "ubuntu"), ("type", .str "Linux"), ("version", .str "20.04")]⟩,
      ⟨1, TestSpec, [("name", Value.str "t"), ("os", Value.ref 0)]⟩], 2⟩
      TestSpec (paramsKey TestSpec
        [("name", Value.str "t"), ("os", Value.ref 0)]) = 1 ∧
    getVal [("name", Value.str "t"), ("os", Value.ref 0)] "os" = some (.ref 0) ∧
    rowKey OperatingSystem ⟨0, OperatingSystem,
        [("name", .str "ubuntu"), ("type", .str "Linux"), ("version", .str "20.04")]⟩ =
      paramsKey OperatingSystem
        [("name", .str "ubuntu"), ("type", .str "Linux"), ("version", .str "20.04")] :=
  nested_resolution_canonical .quietCall ⟨[], 0⟩ TestSpec OperatingSystem
    [("name", Value.str "t")] [] "os"
    (.fcons "name" (.str "ubuntu")
      (.fcons "type" (.str "Linux")
        (.fcons "version" (.str "20.04") .fnil)))
    (by decide) (by decide) (by decide) (by decide) (by decide)
    (by decide) (by decide) (by decide) (by decide)
